import Mathlib

/-!
Verification of the subprocess-output pipeline of colossus_pkgcenter.cpp:
the control-sequence stripper, the yay search-output parser, the process
runner models, and the search pipeline. Text is modelled as `List Char`;
subprocess effects are modelled by explicit oracles, with an invocation
log returned alongside the result so that "no subprocess was spawned"
is a provable statement.
-/

set_option maxRecDepth 4000

/-- Data model: one parsed result row (struct PackageInfo in the source). -/
structure PackageInfo where
  repo : List Char
  name : List Char
  version : List Char
  description : List Char
  installed : Bool
deriving DecidableEq

/-- The default-constructed PackageInfo (all strings empty, not installed). -/
def emptyPkg : PackageInfo := ⟨[], [], [], [], false⟩

/-- The two characters the parser treats as description-line leaders and
trims from the front of description lines (the set given to
find_first_not_of in the source). -/
def isSpaceTab (c : Char) : Bool := c = ' ' || c = '\t'

/-- Whitespace for istream token extraction (classic-locale isspace). -/
def isStreamWS (c : Char) : Bool :=
  c = ' ' || c = '\t' || c = '\n' || c = '\x0b' || c = '\x0c' || c = '\r'

/-- A line the parser routes to the description branch: non-empty with a
leading space or tab. -/
def descShaped : List Char → Bool
  | [] => false
  | c :: _ => isSpaceTab c

/-- One `stream >> token` extraction: skip stream whitespace, then read a
maximal non-whitespace run; fails when only whitespace remains. Returns
the token and the rest of the stream (positioned right after the token). -/
def readTok (s : List Char) : Option (List Char × List Char) :=
  match s.dropWhile isStreamWS with
  | [] => none
  | c :: rest =>
    some ((c :: rest).takeWhile (fun d => !isStreamWS d),
          (c :: rest).dropWhile (fun d => !isStreamWS d))

/-- Whether pat occurs at the start of s (the inner loop of substring
search). -/
def isPrefixB : List Char → List Char → Bool
  | [], _ => true
  | _ :: _, [] => false
  | p :: ps, c :: cs => p = c && isPrefixB ps cs

/-- std::string::find(pat) != npos: does pat occur inside s. -/
def containsSub : List Char → List Char → Bool
  | s, pat =>
    match s with
    | [] => pat.isEmpty
    | _ :: t => isPrefixB pat s || containsSub t pat

/-- Header-line analysis of parse_yay_search: extract the first two
whitespace-separated tokens (repo_name and version); fail if extraction
fails or repo_name has no slash; otherwise split repo_name at its first
slash and test the remainder of the line for the installed markers. -/
def parseHeader (line : List Char) : Option (List Char × List Char × List Char × Bool) :=
  match readTok line with
  | none => none
  | some (repoName, r1) =>
    match readTok r1 with
    | none => none
    | some (version, rest) =>
      if '/' ∈ repoName then
        some (repoName.takeWhile (fun c => c ≠ '/'),
              (repoName.dropWhile (fun c => c ≠ '/')).tail,
              version,
              containsSub rest "[installed]".toList ||
                containsSub rest "(installed)".toList)
      else none

/-- The loop body of parse_yay_search on one line: given the current
candidate and the expecting-description flag, return the new candidate,
the new flag, and the record emitted by this line (if any). -/
def stepLine (cur : PackageInfo) (exp : Bool) (line : List Char) :
    PackageInfo × Bool × Option PackageInfo :=
  match line with
  | [] => (cur, false, none)
  | c :: _ =>
    if isSpaceTab c then
      if exp then
        let rest := line.dropWhile isSpaceTab
        let cur1 : PackageInfo :=
          { cur with description := if rest = [] then line else rest }
        (cur1, false, some cur1)
      else (cur, exp, none)
    else
      match parseHeader line with
      | none => (cur, exp, none)
      | some (re, na, ve, inst) =>
        (⟨re, na, ve, [], inst⟩, true, none)

/-- The line loop of parse_yay_search: fold stepLine over the lines,
collecting emitted records in order. -/
def parseLines : PackageInfo → Bool → List (List Char) → List PackageInfo
  | _, _, [] => []
  | cur, exp, l :: ls =>
    match stepLine cur exp l with
    | (c2, e2, some r) => r :: parseLines c2 e2 ls
    | (c2, e2, none) => parseLines c2 e2 ls

/-- The state (current candidate, expecting-description flag) after the
loop has consumed a list of lines. -/
def parseState : PackageInfo → Bool → List (List Char) → PackageInfo × Bool
  | cur, exp, [] => (cur, exp)
  | cur, exp, l :: ls =>
    match stepLine cur exp l with
    | (c2, e2, _) => parseState c2 e2 ls

/-- std::getline over an istringstream: split the text at newlines; a
trailing newline produces no extra empty line, and the empty text
produces no lines at all. -/
def getLines : List Char → List (List Char)
  | [] => []
  | c :: s =>
    if c = '\n' then [] :: getLines s
    else
      match getLines s with
      | [] => [[c]]
      | l :: ls => (c :: l) :: ls

/-- parse_yay_search from the source: run the line loop from the
default-constructed candidate with the flag down. -/
def parse_yay_search (output : List Char) : List PackageInfo :=
  parseLines emptyPkg false (getLines output)

/-- Scanning mode of strip_ansi_and_osc: normal copying, inside a CSI
sequence (after ESC [), or inside an OSC sequence (after ESC ]). The
source writes these as nested loops; here they are the states of one
structurally recursive scan. -/
inductive StripMode
  | norm
  | csi
  | osc
deriving DecidableEq

/-- The scan of strip_ansi_and_osc. In normal mode, ESC at end of input
is dropped; ESC [ enters CSI mode; ESC ] enters OSC mode; any other ESC
is dropped alone and the following character is reprocessed; everything
else is copied. CSI mode discards bytes up to and including the first
final byte in the range from the at sign to the tilde. OSC mode discards
bytes up to and including a BEL terminator or an ESC-backslash string
terminator. Running out of input in any mode ends the scan. -/
def stripGo : StripMode → List Char → List Char
  | _, [] => []
  | .norm, '\x1b' :: '[' :: s2 => stripGo .csi s2
  | .norm, '\x1b' :: ']' :: s2 => stripGo .osc s2
  | .norm, '\x1b' :: s => stripGo .norm s
  | .norm, c :: s => c :: stripGo .norm s
  | .csi, d :: s =>
    if '@' ≤ d && d ≤ '~' then stripGo .norm s else stripGo .csi s
  | .osc, '\x07' :: s => stripGo .norm s
  | .osc, '\x1b' :: '\\' :: s2 => stripGo .norm s2
  | .osc, '\x1b' :: s => stripGo .osc s
  | .osc, _ :: s => stripGo .osc s

/-- strip_ansi_and_osc from the source: the scan started in normal mode. -/
def strip_ansi_and_osc (input : List Char) : List Char :=
  stripGo .norm input

/-- What a successfully spawned subprocess yields to popen/pclose: the
chunks read from its standard output and its exit code. A failed popen
is modelled as `none` at the call sites. -/
structure SpawnResult where
  chunks : List (List Char)
  exitCode : Int
deriving DecidableEq

/-- run_command from the source, over a spawn model: when popen fails the
empty text is returned; otherwise the chunks read are concatenated. -/
def run_command (spawn : Option SpawnResult) : List Char :=
  match spawn with
  | none => []
  | some r => r.chunks.foldl (fun a b => a ++ b) []

/-- run_command_status from the source, over a spawn model: when popen
fails the result is false; otherwise success means exit code zero. -/
def run_command_status (spawn : Option SpawnResult) : Bool :=
  match spawn with
  | none => false
  | some r => r.exitCode = 0

/-- Observable effects of run_sudo_with_password: its boolean result, the
commands it spawned, and the texts it wrote to the subprocess stdin. -/
structure SudoEffect where
  ok : Bool
  spawned : List (List Char)
  written : List (List Char)
deriving DecidableEq

/-- run_sudo_with_password from the source, over a spawn model (the exit
code of the spawned command, or none when popen fails): an empty password
fails immediately with no spawn and no write; otherwise the command is
spawned, the password plus a newline is written to its stdin, and success
means exit code zero. -/
def run_sudo_with_password (spawn : Option Int)
    (password cmd : List Char) : SudoEffect :=
  if password = [] then ⟨false, [], []⟩
  else
    match spawn with
    | none => ⟨false, [cmd], []⟩
    | some rc => ⟨decide (rc = 0), [cmd], [password ++ ['\n']]⟩

/-- The pacman query command built by is_package_installed. -/
def pacmanQiCmd (name : List Char) : List Char :=
  "pacman -Qi ".toList ++ name ++ " >/dev/null 2>&1".toList

/-- is_package_installed from the source, over a status oracle standing
for run_command_status: ask the oracle about the pacman query command. -/
def is_package_installed (status : List Char → Bool) (name : List Char) : Bool :=
  status (pacmanQiCmd name)

/-- The search command built by perform_search. -/
def yaySsCmd (query : List Char) : List Char :=
  "yay -Ss ".toList ++ query

/-- perform_search from the source, over a capture oracle (standing for
run_command) and a status oracle (standing for run_command_status):
an empty query returns immediately; otherwise the yay search command is
run, its output stripped of control sequences and parsed, and each
record's installed flag is overwritten by the pacman check. The second
component logs every command given to a runner, in order, so that claims
about subprocess invocations are statable. -/
def perform_search (run : List Char → List Char) (status : List Char → Bool)
    (query : List Char) : List PackageInfo × List (List Char) :=
  if query = [] then ([], [])
  else
    let cmd := yaySsCmd query
    let raw := run cmd
    let output := strip_ansi_and_osc raw
    let pkgs := parse_yay_search output
    (pkgs.map (fun p => { p with installed := is_package_installed status p.name }),
     cmd :: pkgs.map (fun p => pacmanQiCmd p.name))

lemma esc_not_mem_stripGo (m : StripMode) (s : List Char) : '\x1b' ∉ stripGo m s := by
  induction m, s using stripGo.induct <;>
    first
      | (simp_all [stripGo]; done)
      | (simp_all [stripGo]; exact mt Eq.symm (by assumption))
      | (simp only [stripGo]; split <;> simp_all)

lemma stripGo_norm_id (s : List Char) (h : '\x1b' ∉ s) : stripGo .norm s = s := by
  induction s with
  | nil => rfl
  | cons c t ih =>
    simp only [List.mem_cons, not_or] at h
    obtain ⟨hc, ht⟩ := h
    have hc2 : c ≠ '\x1b' := fun e => hc e.symm
    simp [stripGo, hc2, ih ht]

/-- C3: the Control-Sequence Stripper is idempotent: stripping a text
twice yields the same result as stripping it once, for every input. -/
theorem strip_idempotent (x : List Char) :
    strip_ansi_and_osc (strip_ansi_and_osc x) = strip_ansi_and_osc x :=
  stripGo_norm_id _ (esc_not_mem_stripGo .norm x)

/-- C9: the output of strip_ansi_and_osc contains no ESC byte: every ESC
in the input is consumed by one of the escape-handling branches. -/
theorem strip_no_esc (x : List Char) :
    (strip_ansi_and_osc x).contains '\x1b' = false := by
  have h := esc_not_mem_stripGo .norm x
  simp [strip_ansi_and_osc, List.contains, List.elem_eq_mem, h]

/-- C8: when the subprocess cannot be spawned (popen yields nothing), the
capture-mode runner returns empty text rather than an error, and the
status-mode runner returns false. -/
theorem runners_soft_fail_on_spawn_failure :
    run_command none = [] ∧ run_command_status none = false :=
  ⟨rfl, rfl⟩

/-- C10: run_sudo_with_password with an empty password fails immediately:
the result is false, no command is spawned, and nothing is written to the
subprocess standard input. -/
theorem sudo_empty_password_no_spawn (spawn : Option Int) (cmd : List Char) :
    run_sudo_with_password spawn [] cmd = ⟨false, [], []⟩ := rfl

/-- C2 counterexample: a query consisting of a single space is not empty,
so perform_search does run the search subprocess: the invocation log is
non-empty, refuting the whitespace-only half of the claim. -/
theorem whitespace_query_spawns :
    (perform_search (fun _ => []) (fun _ => false) " ".toList).2 ≠ [] := by
  decide

/-- C2 amended: only the exactly-empty query short-circuits: it returns an
empty sequence and an empty invocation log; every non-empty query,
whitespace-only ones included, spawns the search subprocess first. -/
theorem empty_query_short_circuit :
    (∀ run status, perform_search run status [] = ([], [])) ∧
    (∀ run status q, q ≠ [] →
      (perform_search run status q).2.head? = some (yaySsCmd q)) := by
  constructor
  · intro run status; rfl
  · intro run status q hq
    simp [perform_search, hq]

theorem empty_query_short_circuit_witness :
    perform_search (fun _ => []) (fun _ => false) [] = ([], []) ∧
    (" ".toList ≠ ([] : List Char) ∧
      (perform_search (fun _ => []) (fun _ => false) " ".toList).2.head? =
        some (yaySsCmd " ".toList)) :=
  ⟨empty_query_short_circuit.1 _ _,
   by decide,
   empty_query_short_circuit.2 _ _ _ (by decide)⟩

/-- C6: every record returned by the pipeline has its installed flag equal
to the status oracle's answer on that record's pacman query: the
resolver's answer unconditionally overwrites the parser's provisional
flag. -/
theorem resolver_overrides_provisional
    (run : List Char → List Char) (status : List Char → Bool)
    (q : List Char) (r : PackageInfo)
    (hr : r ∈ (perform_search run status q).1) :
    r.installed = is_package_installed status r.name := by
  by_cases hq : q = []
  · subst hq; simp [perform_search] at hr
  · simp [perform_search, hq] at hr
    obtain ⟨p, hp, rfl⟩ := hr
    rfl

theorem resolver_overrides_provisional_witness :
    (⟨"extra".toList, "bar".toList, "2.0-1".toList, "Another package".toList,
        false⟩ : PackageInfo) ∈
      (perform_search
        (fun _ => "extra/bar 2.0-1 [installed]\n    Another package\n".toList)
        (fun _ => false) "bar".toList).1 ∧
    (⟨"extra".toList, "bar".toList, "2.0-1".toList, "Another package".toList,
        false⟩ : PackageInfo).installed =
      is_package_installed (fun _ => false)
        (⟨"extra".toList, "bar".toList, "2.0-1".toList, "Another package".toList,
            false⟩ : PackageInfo).name :=
  ⟨by decide,
   resolver_overrides_provisional
     (fun _ => "extra/bar 2.0-1 [installed]\n    Another package\n".toList)
     (fun _ => false) "bar".toList
     ⟨"extra".toList, "bar".toList, "2.0-1".toList, "Another package".toList,
       false⟩
     (by decide)⟩

lemma parseLines_append (xs ys : List (List Char)) (cur : PackageInfo) (e : Bool) :
    parseLines cur e (xs ++ ys) =
      parseLines cur e xs ++
        parseLines (parseState cur e xs).1 (parseState cur e xs).2 ys := by
  induction xs generalizing cur e with
  | nil => simp [parseLines, parseState]
  | cons l ls ih =>
    simp only [List.cons_append, parseLines, parseState]
    rcases h : stepLine cur e l with ⟨c2, e2, em⟩
    cases em <;> simp [ih]

lemma parseLines_single_not_desc (cur : PackageInfo) (e : Bool) (l : List Char)
    (h : descShaped l = false) : parseLines cur e [l] = [] := by
  cases l with
  | nil => simp [parseLines, stepLine]
  | cons c t =>
    simp only [descShaped] at h
    cases hp : parseHeader (c :: t) with
    | none => simp [parseLines, stepLine, h, hp]
    | some v =>
      obtain ⟨re, na, ve, inst⟩ := v
      simp [parseLines, stepLine, h, hp]

/-- C4: records are emitted only when a description line arrives while the
expecting-description flag is set: a trailing line that is not a
description line (a final header line in particular) contributes no
record, and of two consecutive valid header lines the first contributes
no record. -/
theorem emission_requires_description :
    (∀ (cur : PackageInfo) (e : Bool) (ls : List (List Char)) (hl : List Char),
      descShaped hl = false →
      parseLines cur e (ls ++ [hl]) = parseLines cur e ls) ∧
    (∀ (cur : PackageInfo) (e : Bool) (h1 h2 : List Char)
      (ls : List (List Char))
      (v1 v2 : List Char × List Char × List Char × Bool),
      descShaped h1 = false → descShaped h2 = false →
      parseHeader h1 = some v1 → parseHeader h2 = some v2 →
      parseLines cur e (h1 :: h2 :: ls) = parseLines cur e (h2 :: ls)) := by
  constructor
  · intro cur e ls hl h
    rw [parseLines_append, parseLines_single_not_desc _ _ _ h, List.append_nil]
  · intro cur e h1 h2 ls v1 v2 d1 d2 p1 p2
    obtain ⟨r1, n1, ve1, i1⟩ := v1
    obtain ⟨r2, n2, ve2, i2⟩ := v2
    cases h1 with
    | nil => simp [parseHeader, readTok] at p1
    | cons c t =>
      simp only [descShaped] at d1
      cases h2 with
      | nil => simp [parseHeader, readTok] at p2
      | cons c2 t2 =>
        simp only [descShaped] at d2
        simp [parseLines, stepLine, d1, d2, p1, p2]

theorem emission_requires_description_witness :
    (descShaped "a/b 1".toList = false ∧
      parseLines emptyPkg false ([] ++ ["a/b 1".toList]) =
        parseLines emptyPkg false []) ∧
    (descShaped "a/b 1".toList = false ∧ descShaped "c/d 2".toList = false ∧
      parseHeader "a/b 1".toList =
        some ("a".toList, "b".toList, "1".toList, false) ∧
      parseHeader "c/d 2".toList =
        some ("c".toList, "d".toList, "2".toList, false) ∧
      parseLines emptyPkg false ("a/b 1".toList :: "c/d 2".toList :: []) =
        parseLines emptyPkg false ("c/d 2".toList :: [])) :=
  ⟨⟨by decide,
    emission_requires_description.1 emptyPkg false [] "a/b 1".toList (by decide)⟩,
   by decide, by decide, by decide, by decide,
   emission_requires_description.2 emptyPkg false "a/b 1".toList "c/d 2".toList []
     ("a".toList, "b".toList, "1".toList, false)
     ("c".toList, "d".toList, "2".toList, false)
     (by decide) (by decide) (by decide) (by decide)⟩

/-- C5: the documented four-line sample parses to exactly the two expected
records in order, the first with provisional installed false, the second
with provisional installed true. -/
theorem sample_two_record_parse :
    parse_yay_search
      ("core/foo 1.0-1\n    A sample package\nextra/bar 2.0-1 [installed]\n    Another package\n".toList) =
    [⟨"core".toList, "foo".toList, "1.0-1".toList, "A sample package".toList, false⟩,
     ⟨"extra".toList, "bar".toList, "2.0-1".toList, "Another package".toList, true⟩] := by
  decide

/-- C7 counterexample: on a description line consisting only of a space
and a tab (consumed while expecting), the parser stores the whole line as
the description, which is non-empty, not the empty string the claim
requires. -/
theorem whitespace_description_kept :
    (parse_yay_search "a/b 1\n \t".toList).map PackageInfo.description =
      [" \t".toList] ∧ " \t".toList ≠ ([] : List Char) := by
  decide

/-- C7 amended: a description line consumed while the flag is set yields a
record whose description is the line minus its leading space-tab run when
a non-space-tab character remains, and the whole unmodified line when the
line is entirely spaces and tabs; that record is emitted at the front. -/
theorem description_trimmed_or_whole
    (cur : PackageInfo) (ls : List (List Char)) (line : List Char)
    (h : descShaped line = true) :
    (parseLines cur true (line :: ls)).head? =
      some { cur with description :=
        if line.dropWhile isSpaceTab = [] then line
        else line.dropWhile isSpaceTab } := by
  cases line with
  | nil => simp [descShaped] at h
  | cons c t =>
    simp only [descShaped] at h
    simp [parseLines, stepLine, h]

theorem description_trimmed_or_whole_witness :
    descShaped " \t".toList = true ∧
    (parseLines emptyPkg true [" \t".toList]).head? =
      some { emptyPkg with description :=
        if " \t".toList.dropWhile isSpaceTab = [] then " \t".toList
        else " \t".toList.dropWhile isSpaceTab } :=
  ⟨by decide, description_trimmed_or_whole emptyPkg [] " \t".toList (by decide)⟩

lemma dropWhile_head_not {p : Char → Bool} :
    ∀ {l : List Char} {x : Char} {xs : List Char},
      l.dropWhile p = x :: xs → p x = false := by
  intro l
  induction l with
  | nil => intro x xs h; simp [List.dropWhile] at h
  | cons a t ih =>
    intro x xs h
    by_cases hp : p a
    · rw [List.dropWhile_cons_of_pos hp] at h; exact ih h
    · rw [List.dropWhile_cons_of_neg hp] at h
      obtain ⟨rfl, -⟩ := List.cons.inj h
      exact Bool.eq_false_iff.mpr hp

lemma readTok_token_ne_nil {s t r : List Char} (h : readTok s = some (t, r)) :
    t ≠ [] := by
  unfold readTok at h
  cases hd : s.dropWhile isStreamWS with
  | nil => rw [hd] at h; simp at h
  | cons c rest =>
    rw [hd] at h
    have hc : isStreamWS c = false := dropWhile_head_not hd
    simp only [List.takeWhile_cons, hc, Bool.not_false, if_true,
      Option.some.injEq, Prod.mk.injEq] at h
    obtain ⟨ht, -⟩ := h
    rw [← ht]
    simp

lemma parseHeader_fields {line re na ve : List Char} {inst : Bool}
    (h : parseHeader line = some (re, na, ve, inst)) :
    '/' ∉ re ∧ ve ≠ [] := by
  unfold parseHeader at h
  cases h1 : readTok line with
  | none => rw [h1] at h; simp at h
  | some v1 =>
    obtain ⟨t1, r1⟩ := v1
    simp only [h1] at h
    cases h2 : readTok r1 with
    | none => simp only [h2] at h; exact absurd h (by simp)
    | some v2 =>
      obtain ⟨t2, r2⟩ := v2
      simp only [h2] at h
      by_cases hs : '/' ∈ t1
      · simp only [hs, if_true, Option.some.injEq, Prod.mk.injEq] at h
        obtain ⟨hre, -, hve, -⟩ := h
        constructor
        · rw [← hre]
          intro hmem
          have := List.mem_takeWhile_imp hmem
          simp at this
        · rw [← hve]
          exact readTok_token_ne_nil h2
      · simp [hs] at h

lemma stepLine_spec (cur : PackageInfo) (e : Bool) (l : List Char) :
    (∀ r, (stepLine cur e l).2.2 = some r →
      e = true ∧ r.repo = cur.repo ∧ r.version = cur.version) ∧
    ((stepLine cur e l).2.1 = true →
      (e = true ∧ (stepLine cur e l).1.repo = cur.repo ∧
        (stepLine cur e l).1.version = cur.version) ∨
      ('/' ∉ (stepLine cur e l).1.repo ∧
        (stepLine cur e l).1.version ≠ [])) := by
  cases l with
  | nil => simp [stepLine]
  | cons c t =>
    by_cases hc : isSpaceTab c = true
    · cases e with
      | false => simp [stepLine, hc]
      | true =>
        constructor
        · intro r hr
          simp only [stepLine, hc, if_true] at hr
          obtain rfl := Option.some.inj hr
          simp
        · intro hflag
          simp [stepLine, hc] at hflag
    · cases hp : parseHeader (c :: t) with
      | none => simp [stepLine, hc, hp]; tauto
      | some v =>
        obtain ⟨re, na, ve, inst⟩ := v
        have hfields := parseHeader_fields hp
        simp [stepLine, hc, hp, hfields.1, hfields.2]

lemma parseLines_repo_version :
    ∀ (ls : List (List Char)) (cur : PackageInfo) (e : Bool),
      (e = true → '/' ∉ cur.repo ∧ cur.version ≠ []) →
      ∀ r ∈ parseLines cur e ls, '/' ∉ r.repo ∧ r.version ≠ [] := by
  intro ls
  induction ls with
  | nil => intro cur e _ r hr; simp [parseLines] at hr
  | cons l tl ih =>
    intro cur e hce r hr
    obtain ⟨hemit, hstate⟩ := stepLine_spec cur e l
    rcases hst : stepLine cur e l with ⟨c2, e2, em⟩
    rw [hst] at hemit hstate
    simp only at hemit hstate
    have hnext : e2 = true → '/' ∉ c2.repo ∧ c2.version ≠ [] := by
      intro h2
      rcases hstate h2 with ⟨he, hr1, hv1⟩ | hgood
      · rw [hr1, hv1]; exact hce he
      · exact hgood
    simp only [parseLines, hst] at hr
    cases em with
    | none => exact ih c2 e2 hnext r hr
    | some r0 =>
      rcases List.mem_cons.mp hr with rfl | hmem
      · obtain ⟨he, hr1, hv1⟩ := hemit r rfl
        rw [hr1, hv1]; exact hce he
      · exact ih c2 e2 hnext r hmem

/-- C1 counterexample: a first header token beginning with a slash yields
an emitted record with an empty repository, and one ending with a slash
yields an emitted record with an empty name, refuting the non-emptiness
claim on both fields. -/
theorem empty_repo_name_possible :
    (∃ r ∈ parse_yay_search "/foo 1.0\n x\n".toList, r.repo = []) ∧
    (∃ r ∈ parse_yay_search "bar/ 1.0\n x\n".toList, r.name = []) := by
  decide

/-- C1 amended: every emitted record's repository is the part of the first
header token before its first slash (hence contains no slash) and its
version is a non-empty token; repository and name are not always
non-empty: a token beginning with a slash gives an empty repository and a
token whose first slash is last gives an empty name. -/
theorem emitted_record_shape (output : List Char) (r : PackageInfo)
    (hr : r ∈ parse_yay_search output) :
    '/' ∉ r.repo ∧ r.version ≠ [] :=
  parseLines_repo_version _ emptyPkg false (by simp) r hr

theorem emitted_record_shape_witness :
    (⟨"core".toList, "a".toList, "1".toList, "x".toList, false⟩ : PackageInfo) ∈
      parse_yay_search "core/a 1\n x\n".toList ∧
    ('/' ∉ (⟨"core".toList, "a".toList, "1".toList, "x".toList,
        false⟩ : PackageInfo).repo ∧
      (⟨"core".toList, "a".toList, "1".toList, "x".toList,
        false⟩ : PackageInfo).version ≠ []) :=
  ⟨by decide,
   emitted_record_shape "core/a 1\n x\n".toList
     ⟨"core".toList, "a".toList, "1".toList, "x".toList, false⟩ (by decide)⟩
